import Mathlib

/-!
Verification of the GeekFactory Shell command-line interface engine.

The repository ships `Shell.h`: configuration macros, ASCII/VT100 byte
constants, return codes, the `shell_command_entry` record and the public
entry points. The runtime logic (escape-sequence decoding, line editing,
history, tokenization, dispatch) is declared there and specified in the
design document; the corresponding definitions below are modelled from
that specification. Bytes are represented as `Nat` values below 256,
strings as `List Nat` of byte values.
-/

namespace Shell

/-- Default of `CONFIG_SHELL_MAX_COMMANDS` from `Shell.h`: maximum number of
commands that can be registered. -/
def CONFIG_SHELL_MAX_COMMANDS : Nat := 5

/-- Default of `CONFIG_SHELL_MAX_INPUT` from `Shell.h`: maximum characters the
input buffer can accept. -/
def CONFIG_SHELL_MAX_INPUT : Nat := 100

/-- Default of `CONFIG_SHELL_MAX_COMMAND_ARGS` from `Shell.h`: maximum number
of arguments per command. -/
def CONFIG_SHELL_MAX_COMMAND_ARGS : Nat := 10

def SHELL_ASCII_NUL : Nat := 0x00
def SHELL_ASCII_BEL : Nat := 0x07
def SHELL_ASCII_BS : Nat := 0x08
def SHELL_ASCII_HT : Nat := 0x09
def SHELL_ASCII_LF : Nat := 0x0A
def SHELL_ASCII_CR : Nat := 0x0D
def SHELL_ASCII_ESC : Nat := 0x1B
def SHELL_ASCII_DEL : Nat := 0x7F
def SHELL_ASCII_US : Nat := 0x1F
def SHELL_ASCII_SP : Nat := 0x20

/-- `'A'` -/
def SHELL_VT100_ARROWUP : Nat := 0x41

/-- `'B'` -/
def SHELL_VT100_ARROWDOWN : Nat := 0x42

/-- `'C'` -/
def SHELL_VT100_ARROWRIGHT : Nat := 0x43

/-- `'D'` -/
def SHELL_VT100_ARROWLEFT : Nat := 0x44

def SHELL_RET_SUCCESS : Int := 0
def SHELL_RET_FAILURE : Int := 1
def SHELL_RET_IOPENDING : Int := -1

/-- The decoder states of the VT100 escape-sequence decoder
(spec §3 DecoderState). -/
inductive DecoderState where
  | Normal
  | EscapeSeen
  | EscapeBracketSeen
deriving DecidableEq

/-- The high-level edit events emitted by the decoder and consumed by the
line editor (spec §2). `InsertChar` carries the printable byte. -/
inductive EditEvent where
  | InsertChar (c : Nat)
  | Backspace
  | DeleteForward
  | MoveLeft
  | MoveRight
  | HistoryPrev
  | HistoryNext
  | Submit
  | Cancel
deriving DecidableEq

/-- Modelled from the spec: `feed(byte) -> Option<EditEvent>` (§4.1), the
pure transition function of the escape-sequence decoder, whose
implementation (`Shell.c`) is not shipped with the header. Returns the
next decoder state together with the emitted event, if any. -/
def feed (st : DecoderState) (b : Nat) : DecoderState × Option EditEvent :=
  match st with
  | DecoderState.Normal =>
    if b = SHELL_ASCII_ESC then (DecoderState.EscapeSeen, none)
    else if b = SHELL_ASCII_CR then (DecoderState.Normal, some EditEvent.Submit)
    else if b = SHELL_ASCII_LF then (DecoderState.Normal, some EditEvent.Submit)
    else if b = SHELL_ASCII_BS then (DecoderState.Normal, some EditEvent.Backspace)
    else if b = SHELL_ASCII_DEL then (DecoderState.Normal, some EditEvent.Backspace)
    else if SHELL_ASCII_SP ≤ b ∧ b ≤ 0x7E then (DecoderState.Normal, some (EditEvent.InsertChar b))
    else (DecoderState.Normal, none)
  | DecoderState.EscapeSeen =>
    if b = 0x5B then (DecoderState.EscapeBracketSeen, none)
    else (DecoderState.Normal, none)
  | DecoderState.EscapeBracketSeen =>
    if b = SHELL_VT100_ARROWUP then (DecoderState.Normal, some EditEvent.HistoryPrev)
    else if b = SHELL_VT100_ARROWDOWN then (DecoderState.Normal, some EditEvent.HistoryNext)
    else if b = SHELL_VT100_ARROWRIGHT then (DecoderState.Normal, some EditEvent.MoveRight)
    else if b = SHELL_VT100_ARROWLEFT then (DecoderState.Normal, some EditEvent.MoveLeft)
    else (DecoderState.Normal, none)

/-- Feed a whole byte sequence through the decoder, collecting the emitted
events in order. -/
def feedAll (st : DecoderState) : List Nat → DecoderState × List EditEvent
  | [] => (st, [])
  | b :: bs =>
    let (st1, ev) := feed st b
    let (st2, evs) := feedAll st1 bs
    (st2, (match ev with | none => evs | some e => e :: evs))

/-- Whitespace for tokenization: space or horizontal tab (spec §4.4). -/
def isWs (b : Nat) : Bool := b = SHELL_ASCII_SP || b = SHELL_ASCII_HT

/-- Modelled from the spec: splitting a line on runs of whitespace
(space, tab) into its maximal non-whitespace words (§4.4); the tokenizer of
`Shell.c`, which is not shipped with the header, produces these words up to
the configured argument limit. -/
def words : List Nat → List (List Nat)
  | [] => []
  | b :: bs =>
    if isWs b then words bs
    else
      match bs with
      | [] => [[b]]
      | d :: _ =>
        if isWs d then [b] :: words bs
        else
          match words bs with
          | [] => [[b]]
          | w :: ws => (b :: w) :: ws

/-- Skip the leading whitespace and then one word. -/
def stepWord (cs : List Nat) : List Nat :=
  (cs.dropWhile (fun b => isWs b)).dropWhile (fun b => !(isWs b))

/-- The suffix of the line starting at its `(k+1)`-th word (leading
whitespace skipped). -/
def afterWords : Nat → List Nat → List Nat
  | 0, cs => cs.dropWhile (fun b => isWs b)
  | k + 1, cs => afterWords k (stepWord cs)

/-- Modelled from the spec: the tokenizer (§4.4). Splits the line on runs of
whitespace into at most `maxargs` tokens; when the line holds more words
than `maxargs`, the remainder of the line beyond the first `maxargs - 1`
words is truncated into the last slot instead of being dropped. -/
def tokenize (maxargs : Nat) (cs : List Nat) : List (List Nat) :=
  if (words cs).length ≤ maxargs then words cs
  else if maxargs = 0 then []
  else (words cs).take (maxargs - 1) ++ [afterWords (maxargs - 1) cs]

/-- The bytes of a string literal, for concrete test inputs. -/
def strBytes (s : String) : List Nat := s.toList.map Char.toNat

/-- The record `shell_command_entry` of `Shell.h`: the handler (a function
from `argc`/`argv` to a status) and the command name. -/
structure shell_command_entry where
  shell_program : Nat → List (List Nat) → Int
  shell_command_string : List Nat

/-- Modelled from the spec: `register(name, handler) -> bool` (§4.5), the
body of `shell_register` not shipped with the header. The registry is the
ordered list of live entries; `cap` is `CONFIG_SHELL_MAX_COMMANDS`.
Fails, leaving the registry unchanged, when the table is at capacity;
otherwise appends the new entry. -/
def shell_register (cap : Nat) (reg : List shell_command_entry)
    (program : Nat → List (List Nat) → Int) (name : List Nat) :
    Bool × List shell_command_entry :=
  if reg.length < cap then (true, reg ++ [⟨program, name⟩])
  else (false, reg)

/-- First entry whose name matches, with its registration index
(linear scan in registration order, exact case-sensitive match). -/
def findCmd : List shell_command_entry → List Nat → Option (Nat × shell_command_entry)
  | [], _ => none
  | e :: rest, name =>
    if e.shell_command_string = name then some (0, e)
    else (findCmd rest name).map (fun p => (p.1 + 1, p.2))

/-- Outcome of a dispatch: the returned status, the registration index of
the handler that was invoked (if any), and whether a "command not found"
report was emitted. -/
structure DispatchResult where
  status : Int
  invoked : Option Nat
  notFound : Bool
deriving DecidableEq

/-- Modelled from the spec: `dispatch(line) -> status` (§4.4), the body of
the dispatcher not shipped with the header. Tokenizes the line; an empty
line returns success with no action; otherwise the first token is looked up
by linear scan and the first exact match's handler is invoked with the full
token vector (command name as `argv[0]`), its status propagated; with no
match a "command not found" report is emitted and failure returned. -/
def shell_dispatch (reg : List shell_command_entry) (line : List Nat) : DispatchResult :=
  match tokenize CONFIG_SHELL_MAX_COMMAND_ARGS line with
  | [] => ⟨SHELL_RET_SUCCESS, none, false⟩
  | name :: args =>
    match findCmd reg name with
    | some (i, e) => ⟨e.shell_program (name :: args).length (name :: args), some i, false⟩
    | none => ⟨SHELL_RET_FAILURE, none, true⟩

/-- The engine's editing state: the live line buffer with its cursor
(spec §3 LineBuffer), the history ring holding previously submitted lines
oldest first (spec §3 HistoryStore), and the history navigation cursor —
`none` when not browsing, `some k` when browsing the line `k` steps back
from the newest entry. -/
structure ShellState where
  buf : List Nat
  cursor : Nat
  hist : List (List Nat)
  nav : Option Nat
deriving DecidableEq

/-- The engine's state before any input: empty buffer, empty history. -/
def initState : ShellState := ⟨[], 0, [], none⟩

/-- Modelled from the spec: appending a submitted line to the history ring
(§4.2 Submit, §4.3), overwriting the oldest entry when the ring is full.
`cap` is the history capacity. -/
def pushLine (cap : Nat) (hist : List (List Nat)) (l : List Nat) : List (List Nat) :=
  if hist.length < cap then hist ++ [l]
  else hist.drop 1 ++ [l]

/-- The slot the navigation cursor lands on after one HistoryPrev press:
the newest entry when not yet browsing, otherwise one step older, clamped
at the oldest occupied slot (no wraparound). -/
def navTarget (hist : List (List Nat)) (nav : Option Nat) : Nat :=
  match nav with
  | none => 0
  | some k => min (k + 1) (hist.length - 1)

/-- The stored line `k` steps back from the newest history entry. -/
def recallAt (hist : List (List Nat)) (k : Nat) : List Nat :=
  hist.getD (hist.length - 1 - k) []

/-- Modelled from the spec: applying one edit event to the engine state
(§4.2), the line-editor body not shipped with the header. `bufCap` is
`CONFIG_SHELL_MAX_INPUT`, `histCap` the history capacity. -/
def applyEvent (bufCap histCap : Nat) (s : ShellState) : EditEvent → ShellState
  | EditEvent.InsertChar c =>
    if s.buf.length = bufCap - 1 then s
    else { s with buf := s.buf.take s.cursor ++ c :: s.buf.drop s.cursor,
                  cursor := s.cursor + 1 }
  | EditEvent.Backspace =>
    if s.cursor = 0 then s
    else { s with buf := s.buf.take (s.cursor - 1) ++ s.buf.drop s.cursor,
                  cursor := s.cursor - 1 }
  | EditEvent.DeleteForward =>
    if s.cursor = s.buf.length then s
    else { s with buf := s.buf.take s.cursor ++ s.buf.drop (s.cursor + 1) }
  | EditEvent.MoveLeft =>
    if s.cursor = 0 then s else { s with cursor := s.cursor - 1 }
  | EditEvent.MoveRight =>
    if s.cursor = s.buf.length then s else { s with cursor := s.cursor + 1 }
  | EditEvent.HistoryPrev =>
    if s.hist = [] then s
    else { s with buf := recallAt s.hist (navTarget s.hist s.nav),
                  cursor := (recallAt s.hist (navTarget s.hist s.nav)).length,
                  nav := some (navTarget s.hist s.nav) }
  | EditEvent.HistoryNext =>
    if s.hist = [] then s
    else
      match s.nav with
      | none => s
      | some k =>
        { s with buf := recallAt s.hist (k - 1),
                 cursor := (recallAt s.hist (k - 1)).length,
                 nav := some (k - 1) }
  | EditEvent.Submit =>
    if s.buf = [] then s
    else ⟨[], 0, pushLine histCap s.hist s.buf, none⟩
  | EditEvent.Cancel => { s with buf := [], cursor := 0, nav := none }

/-- Iterated HistoryPrev presses. -/
def iterPrev (bufCap histCap : Nat) : Nat → ShellState → ShellState
  | 0, s => s
  | n + 1, s => applyEvent bufCap histCap (iterPrev bufCap histCap n s) EditEvent.HistoryPrev

/-- Loading a line into the live buffer (as typing it would) and submitting
it: the per-line step of a submission sequence. -/
def submitLine (bufCap histCap : Nat) (s : ShellState) (l : List Nat) : ShellState :=
  applyEvent bufCap histCap { s with buf := l, cursor := l.length } EditEvent.Submit

/-- Submitting a sequence of lines in order. -/
def submitSeq (bufCap histCap : Nat) (s : ShellState) (ls : List (List Nat)) : ShellState :=
  ls.foldl (submitLine bufCap histCap) s

/-- The engine-state invariant (spec §3): the cursor stays within the line,
the line length stays below the buffer capacity (one slot reserved for the
terminator), the history holds at most `histCap` entries, and every stored
history line also fits the buffer. -/
def ShellInv (bufCap histCap : Nat) (s : ShellState) : Prop :=
  s.cursor ≤ s.buf.length ∧
  s.buf.length ≤ bufCap - 1 ∧
  s.hist.length ≤ histCap ∧
  ∀ l ∈ s.hist, l.length ≤ bufCap - 1

/-- C5: in the decoder's Normal state, ESC (0x1B) transitions to EscapeSeen
and emits nothing; CR (0x0D) or LF (0x0A) emits Submit and stays Normal;
BS (0x08) or DEL (0x7F) emits Backspace; every printable byte in 0x20–0x7E
emits InsertChar of that byte; every other control byte emits nothing. -/
theorem C5_decoder_normal_state (b : Nat) :
    feed DecoderState.Normal b =
      (if b = 0x1B then (DecoderState.EscapeSeen, none)
       else if b = 0x0D ∨ b = 0x0A then (DecoderState.Normal, some EditEvent.Submit)
       else if b = 0x08 ∨ b = 0x7F then (DecoderState.Normal, some EditEvent.Backspace)
       else if 0x20 ≤ b ∧ b ≤ 0x7E then (DecoderState.Normal, some (EditEvent.InsertChar b))
       else (DecoderState.Normal, none)) := by
  unfold feed SHELL_ASCII_ESC SHELL_ASCII_CR SHELL_ASCII_LF SHELL_ASCII_BS
    SHELL_ASCII_DEL SHELL_ASCII_SP
  split_ifs <;> first | rfl | omega

/-- C1: feeding ESC, '[', 'A' from Normal emits nothing for the first two
bytes and exactly one HistoryPrev for the third, ending in Normal; a lone
ESC followed by any printable byte other than '[' emits no event at all
(the printable byte is not reinterpreted as InsertChar) and returns the
decoder to Normal. -/
theorem C1_escape_sequences :
    feed DecoderState.Normal 0x1B = (DecoderState.EscapeSeen, none) ∧
    feed DecoderState.EscapeSeen 0x5B = (DecoderState.EscapeBracketSeen, none) ∧
    feed DecoderState.EscapeBracketSeen 0x41 = (DecoderState.Normal, some EditEvent.HistoryPrev) ∧
    feedAll DecoderState.Normal [0x1B, 0x5B, 0x41] =
      (DecoderState.Normal, [EditEvent.HistoryPrev]) ∧
    ∀ b : Nat, 0x20 ≤ b → b ≤ 0x7E → b ≠ 0x5B →
      feedAll DecoderState.Normal [0x1B, b] = (DecoderState.Normal, []) := by
  refine ⟨rfl, rfl, rfl, rfl, ?_⟩
  intro b _ _ hb
  simp [feedAll, feed, SHELL_ASCII_ESC, hb]

/-- C1 witness: the printable-byte clause at the concrete byte 'x' (0x78). -/
theorem C1_escape_sequences_witness :
    feedAll DecoderState.Normal [0x1B, 0x78] = (DecoderState.Normal, []) :=
  C1_escape_sequences.2.2.2.2 0x78 (by decide) (by decide) (by decide)

/-- C3: when the registry already holds its capacity of entries, the next
registration fails and leaves the registry unchanged — the same entries in
the same order. -/
theorem C3_register_at_capacity (cap : Nat) (reg : List shell_command_entry)
    (program : Nat → List (List Nat) → Int) (name : List Nat)
    (h : reg.length = cap) :
    shell_register cap reg program name = (false, reg) := by
  unfold shell_register
  rw [if_neg]
  omega

/-- C3 witness: a registry of one entry at capacity one rejects the next
registration unchanged. -/
theorem C3_register_at_capacity_witness :
    shell_register 1 [⟨fun _ _ => 0, strBytes "led"⟩] (fun _ _ => 1) (strBytes "on") =
      (false, [⟨fun _ _ => 0, strBytes "led"⟩]) :=
  C3_register_at_capacity 1 [⟨fun _ _ => 0, strBytes "led"⟩] (fun _ _ => 1)
    (strBytes "on") rfl

/-- C9: each bound-violating edit leaves the state completely unchanged:
InsertChar with the buffer full (length = capacity − 1), Backspace with the
cursor at 0, and DeleteForward with the cursor at the end are silent
no-ops. -/
theorem C9_boundary_noops (bufCap histCap : Nat) (s : ShellState) (c : Nat) :
    (s.buf.length = bufCap - 1 →
      applyEvent bufCap histCap s (EditEvent.InsertChar c) = s) ∧
    (s.cursor = 0 → applyEvent bufCap histCap s EditEvent.Backspace = s) ∧
    (s.cursor = s.buf.length →
      applyEvent bufCap histCap s EditEvent.DeleteForward = s) := by
  refine ⟨fun h => ?_, fun h => ?_, fun h => ?_⟩ <;> simp [applyEvent, h]

/-- C9 witness: on the empty initial state with capacity 1 all three
boundary conditions hold and each edit is a no-op. -/
theorem C9_boundary_noops_witness :
    applyEvent 1 1 initState (EditEvent.InsertChar 0x61) = initState ∧
    applyEvent 1 1 initState EditEvent.Backspace = initState ∧
    applyEvent 1 1 initState EditEvent.DeleteForward = initState :=
  ⟨(C9_boundary_noops 1 1 initState 0x61).1 (by decide),
   (C9_boundary_noops 1 1 initState 0x61).2.1 (by decide),
   (C9_boundary_noops 1 1 initState 0x61).2.2 (by decide)⟩

/-- C7: tokenizing "cmd  a   b" (runs of spaces between words) yields
exactly argv = ["cmd","a","b"], argc = 3; tokenizing the empty line yields
argc = 0, and dispatching it returns success with no handler invoked and no
"command not found" report, whatever the registry. -/
theorem C7_tokenize_examples :
    tokenize CONFIG_SHELL_MAX_COMMAND_ARGS (strBytes "cmd  a   b") =
      [strBytes "cmd", strBytes "a", strBytes "b"] ∧
    (tokenize CONFIG_SHELL_MAX_COMMAND_ARGS (strBytes "cmd  a   b")).length = 3 ∧
    tokenize CONFIG_SHELL_MAX_COMMAND_ARGS [] = [] ∧
    ∀ reg : List shell_command_entry,
      shell_dispatch reg [] = ⟨SHELL_RET_SUCCESS, none, false⟩ := by
  refine ⟨by decide, by decide, rfl, fun reg => rfl⟩

/-- Linear scan: with no match in `pre`, the first matching entry after it
is found, at index `pre.length`. -/
lemma findCmd_append_first (pre : List shell_command_entry) (e : shell_command_entry)
    (post : List shell_command_entry) (name : List Nat)
    (hname : e.shell_command_string = name)
    (hpre : ∀ e' ∈ pre, e'.shell_command_string ≠ name) :
    findCmd (pre ++ e :: post) name = some (pre.length, e) := by
  induction pre with
  | nil => simp [findCmd, hname]
  | cons p pre ih =>
    have hp : p.shell_command_string ≠ name := hpre p (by simp)
    have ih' := ih (fun e' he' => hpre e' (by simp [he']))
    simp [findCmd, hp, ih']

/-- Linear scan: with no matching entry at all, the lookup fails. -/
lemma findCmd_eq_none (reg : List shell_command_entry) (name : List Nat)
    (h : ∀ e ∈ reg, e.shell_command_string ≠ name) :
    findCmd reg name = none := by
  induction reg with
  | nil => rfl
  | cons p reg ih =>
    have hp : p.shell_command_string ≠ name := h p (by simp)
    have ih' := ih (fun e' he' => h e' (by simp [he']))
    simp [findCmd, hp, ih']

/-- C2: when the first token of a submitted line equals the name of a
registered command, dispatch invokes the handler of the first matching
entry in registration order (so the earliest registration wins and later
duplicates are unreachable), passing the full token vector with the command
name as argv[0] and propagating the handler's status; when no registered
name matches, no handler is invoked, a "command not found" report is
emitted and failure is returned. -/
theorem C2_dispatch_first_match :
    (∀ (pre : List shell_command_entry) (e : shell_command_entry)
       (post : List shell_command_entry) (line name : List Nat)
       (args : List (List Nat)),
      tokenize CONFIG_SHELL_MAX_COMMAND_ARGS line = name :: args →
      e.shell_command_string = name →
      (∀ e' ∈ pre, e'.shell_command_string ≠ name) →
      shell_dispatch (pre ++ e :: post) line =
        ⟨e.shell_program (name :: args).length (name :: args), some pre.length, false⟩) ∧
    (∀ (reg : List shell_command_entry) (line name : List Nat)
       (args : List (List Nat)),
      tokenize CONFIG_SHELL_MAX_COMMAND_ARGS line = name :: args →
      (∀ e' ∈ reg, e'.shell_command_string ≠ name) →
      shell_dispatch reg line = ⟨SHELL_RET_FAILURE, none, true⟩) := by
  constructor
  · intro pre e post line name args htok hname hpre
    unfold shell_dispatch
    rw [htok]
    simp [findCmd_append_first pre e post name hname hpre]
  · intro reg line name args htok hnone
    unfold shell_dispatch
    rw [htok]
    simp [findCmd_eq_none reg name hnone]

/-- A concrete handler observing its arguments: returns 42 exactly when
invoked as `led on` with argc = 2. -/
def ledHandler : Nat → List (List Nat) → Int :=
  fun argc argv =>
    if argc = 2 ∧ argv = [strBytes "led", strBytes "on"] then 42 else 7

/-- C2 witness: registering "led" and submitting "led on" invokes that
handler with argv = ["led","on"]; submitting "unknown x" against the same
registry reports "command not found" with no handler invoked. -/
theorem C2_dispatch_first_match_witness :
    shell_dispatch [⟨ledHandler, strBytes "led"⟩] (strBytes "led on") =
      ⟨42, some 0, false⟩ ∧
    shell_dispatch [⟨ledHandler, strBytes "led"⟩] (strBytes "unknown x") =
      ⟨SHELL_RET_FAILURE, none, true⟩ := by
  constructor
  · have h := C2_dispatch_first_match.1 [] ⟨ledHandler, strBytes "led"⟩ []
      (strBytes "led on") (strBytes "led") [strBytes "on"] (by decide) rfl
      (by intro e' he'; simp at he')
    exact h.trans (by decide)
  · exact C2_dispatch_first_match.2 [⟨ledHandler, strBytes "led"⟩]
      (strBytes "unknown x") (strBytes "unknown") [strBytes "x"] (by decide)
      (by intro e' he'; rw [List.mem_singleton] at he'; subst he'; decide)

/-- An in-range `getD` picks an element of the list. -/
lemma getD_mem_of_lt {α : Type} (L : List α) (d : α) (i : Nat) (h : i < L.length) :
    L.getD i d ∈ L := by
  rw [List.getD_eq_getElem L d h]
  exact List.getElem_mem h

/-- Pushing a line keeps the history within capacity. -/
lemma pushLine_length_le (cap : Nat) (hist : List (List Nat)) (l : List Nat)
    (hc : 0 < cap) (hlen : hist.length ≤ cap) :
    (pushLine cap hist l).length ≤ cap := by
  unfold pushLine
  split_ifs with h <;> simp <;> omega

/-- Every line in a pushed history is a stored line or the new one. -/
lemma mem_pushLine (cap : Nat) (hist : List (List Nat)) (l x : List Nat)
    (hx : x ∈ pushLine cap hist l) : x ∈ hist ∨ x = l := by
  unfold pushLine at hx
  split_ifs at hx <;> rw [List.mem_append] at hx <;>
    rcases hx with hx | hx
  · exact Or.inl hx
  · exact Or.inr (List.mem_singleton.mp hx)
  · exact Or.inl (List.drop_subset 1 hist hx)
  · exact Or.inr (List.mem_singleton.mp hx)

/-- A recalled history line is one of the stored lines. -/
lemma recallAt_mem (hist : List (List Nat)) (k : Nat) (h : 0 < hist.length) :
    recallAt hist k ∈ hist :=
  getD_mem_of_lt hist [] (hist.length - 1 - k) (by omega)

/-- One edit event preserves the engine-state invariant. -/
lemma applyEvent_preserves_inv (bufCap histCap : Nat) (s : ShellState) (e : EditEvent)
    (hh : 0 < histCap) (hs : ShellInv bufCap histCap s) :
    ShellInv bufCap histCap (applyEvent bufCap histCap s e) := by
  obtain ⟨h1, h2, h3, h4⟩ := hs
  cases e with
  | InsertChar c =>
    by_cases hfull : s.buf.length = bufCap - 1
    · rw [show applyEvent bufCap histCap s (EditEvent.InsertChar c) = s from by
        simp [applyEvent, hfull]]
      exact ⟨h1, h2, h3, h4⟩
    · rw [show applyEvent bufCap histCap s (EditEvent.InsertChar c) =
          { s with buf := s.buf.take s.cursor ++ c :: s.buf.drop s.cursor,
                   cursor := s.cursor + 1 } from by simp [applyEvent, hfull]]
      refine ⟨?_, ?_, h3, h4⟩ <;>
        simp [List.length_take, List.length_drop] <;> omega
  | Backspace =>
    by_cases hz : s.cursor = 0
    · rw [show applyEvent bufCap histCap s EditEvent.Backspace = s from by
        simp [applyEvent, hz]]
      exact ⟨h1, h2, h3, h4⟩
    · rw [show applyEvent bufCap histCap s EditEvent.Backspace =
          { s with buf := s.buf.take (s.cursor - 1) ++ s.buf.drop s.cursor,
                   cursor := s.cursor - 1 } from by simp [applyEvent, hz]]
      refine ⟨?_, ?_, h3, h4⟩ <;>
        simp [List.length_take, List.length_drop] <;> omega
  | DeleteForward =>
    by_cases hend : s.cursor = s.buf.length
    · rw [show applyEvent bufCap histCap s EditEvent.DeleteForward = s from by
        simp [applyEvent, hend]]
      exact ⟨h1, h2, h3, h4⟩
    · rw [show applyEvent bufCap histCap s EditEvent.DeleteForward =
          { s with buf := s.buf.take s.cursor ++ s.buf.drop (s.cursor + 1) } from by
        simp [applyEvent, hend]]
      refine ⟨?_, ?_, h3, h4⟩ <;>
        simp [List.length_take, List.length_drop] <;> omega
  | MoveLeft =>
    by_cases hz : s.cursor = 0
    · rw [show applyEvent bufCap histCap s EditEvent.MoveLeft = s from by
        simp [applyEvent, hz]]
      exact ⟨h1, h2, h3, h4⟩
    · rw [show applyEvent bufCap histCap s EditEvent.MoveLeft =
          { s with cursor := s.cursor - 1 } from by simp [applyEvent, hz]]
      exact ⟨show s.cursor - 1 ≤ s.buf.length by omega, h2, h3, h4⟩
  | MoveRight =>
    by_cases hend : s.cursor = s.buf.length
    · rw [show applyEvent bufCap histCap s EditEvent.MoveRight = s from by
        simp [applyEvent, hend]]
      exact ⟨h1, h2, h3, h4⟩
    · rw [show applyEvent bufCap histCap s EditEvent.MoveRight =
          { s with cursor := s.cursor + 1 } from by simp [applyEvent, hend]]
      exact ⟨show s.cursor + 1 ≤ s.buf.length by omega, h2, h3, h4⟩
  | HistoryPrev =>
    by_cases hemp : s.hist = []
    · rw [show applyEvent bufCap histCap s EditEvent.HistoryPrev = s from by
        simp [applyEvent, hemp]]
      exact ⟨h1, h2, h3, h4⟩
    · have hpos : 0 < s.hist.length := List.length_pos.mpr hemp
      rw [show applyEvent bufCap histCap s EditEvent.HistoryPrev =
          { s with buf := recallAt s.hist (navTarget s.hist s.nav),
                   cursor := (recallAt s.hist (navTarget s.hist s.nav)).length,
                   nav := some (navTarget s.hist s.nav) } from by
        simp [applyEvent, hemp]]
      exact ⟨le_refl _, h4 _ (recallAt_mem s.hist _ hpos), h3, h4⟩
  | HistoryNext =>
    by_cases hemp : s.hist = []
    · rw [show applyEvent bufCap histCap s EditEvent.HistoryNext = s from by
        simp [applyEvent, hemp]]
      exact ⟨h1, h2, h3, h4⟩
    · have hpos : 0 < s.hist.length := List.length_pos.mpr hemp
      cases hnav : s.nav with
      | none =>
        rw [show applyEvent bufCap histCap s EditEvent.HistoryNext = s from by
          simp [applyEvent, hemp, hnav]]
        exact ⟨h1, h2, h3, h4⟩
      | some k =>
        rw [show applyEvent bufCap histCap s EditEvent.HistoryNext =
            { s with buf := recallAt s.hist (k - 1),
                     cursor := (recallAt s.hist (k - 1)).length,
                     nav := some (k - 1) } from by simp [applyEvent, hemp, hnav]]
        exact ⟨le_refl _, h4 _ (recallAt_mem s.hist _ hpos), h3, h4⟩
  | Submit =>
    by_cases hemp : s.buf = []
    · rw [show applyEvent bufCap histCap s EditEvent.Submit = s from by
        simp [applyEvent, hemp]]
      exact ⟨h1, h2, h3, h4⟩
    · rw [show applyEvent bufCap histCap s EditEvent.Submit =
          ⟨[], 0, pushLine histCap s.hist s.buf, none⟩ from by simp [applyEvent, hemp]]
      refine ⟨le_refl _, by simp, pushLine_length_le histCap s.hist s.buf hh h3, ?_⟩
      intro l hl
      rcases mem_pushLine histCap s.hist s.buf l hl with h | h
      · exact h4 l h
      · exact h ▸ h2
  | Cancel =>
    rw [show applyEvent bufCap histCap s EditEvent.Cancel =
        { s with buf := [], cursor := 0, nav := none } from by simp [applyEvent]]
    exact ⟨by simp, by simp, h3, h4⟩

/-- C4: every sequence of edit events applied to a state satisfying the
invariant (cursor ≤ length ≤ capacity − 1, history within its capacity with
every stored line fitting the buffer) yields a state satisfying it again —
no sequence of InsertChar, Backspace, DeleteForward, MoveLeft, MoveRight,
HistoryPrev, HistoryNext, Submit (or Cancel) events can make the cursor
exceed the length or the length reach the capacity. -/
theorem C4_invariant_preserved (bufCap histCap : Nat) (s : ShellState)
    (events : List EditEvent) (hh : 0 < histCap)
    (hs : ShellInv bufCap histCap s) :
    ShellInv bufCap histCap (events.foldl (applyEvent bufCap histCap) s) := by
  induction events generalizing s with
  | nil => exact hs
  | cons e es ih =>
    exact ih (applyEvent bufCap histCap s e)
      (applyEvent_preserves_inv bufCap histCap s e hh hs)

/-- C4 witness: a concrete event sequence (typing, editing, navigating and
submitting) from the initial state with the default buffer capacity keeps
the invariant. -/
theorem C4_invariant_preserved_witness :
    ShellInv CONFIG_SHELL_MAX_INPUT 3
      (([EditEvent.InsertChar 0x61, EditEvent.InsertChar 0x62, EditEvent.MoveLeft,
         EditEvent.Backspace, EditEvent.InsertChar 0x63, EditEvent.Submit,
         EditEvent.HistoryPrev, EditEvent.DeleteForward, EditEvent.MoveRight,
         EditEvent.HistoryNext, EditEvent.Submit, EditEvent.Cancel]).foldl
        (applyEvent CONFIG_SHELL_MAX_INPUT 3) initState) :=
  C4_invariant_preserved CONFIG_SHELL_MAX_INPUT 3 initState _ (by decide)
    ⟨by decide, by decide, by decide, by simp [initState]⟩

/-- Leading whitespace does not change the word split. -/
lemma words_dropWhile_ws (cs : List Nat) :
    words (cs.dropWhile (fun b => isWs b)) = words cs := by
  induction cs with
  | nil => rfl
  | cons b bs ih =>
    by_cases hb : isWs b
    · simpa [List.dropWhile_cons, hb, words] using ih
    · simp [List.dropWhile_cons, hb]

/-- One-step unfolding of `words` on two leading non-whitespace bytes. -/
lemma words_cons_cons (b d : Nat) (rest : List Nat) (hb : isWs b = false)
    (hd : isWs d = false) :
    words (b :: d :: rest) =
      (match words (d :: rest) with
       | [] => [[b]]
       | w :: ws => (b :: w) :: ws) := by
  show (if isWs b = true then words (d :: rest)
        else if isWs d = true then [b] :: words (d :: rest)
        else match words (d :: rest) with
          | [] => [[b]]
          | w :: ws => (b :: w) :: ws) = _
  rw [if_neg (by simp [hb]), if_neg (by simp [hd])]

/-- Unfolding one word: a line starting with a non-whitespace byte splits
into its first maximal word followed by the split of the rest. -/
lemma words_cons_eq (bs : List Nat) : ∀ b : Nat, isWs b = false →
    words (b :: bs) =
      ((b :: bs).takeWhile (fun x => !(isWs x))) ::
        words ((b :: bs).dropWhile (fun x => !(isWs x))) := by
  induction bs with
  | nil => intro b hb; simp [words, hb, List.takeWhile_cons, List.dropWhile_cons]
  | cons d rest ih =>
    intro b hb
    by_cases hd : isWs d
    · simp [words, hb, hd, List.takeWhile_cons, List.dropWhile_cons]
    · have hd' : isWs d = false := by simpa using hd
      have ih2 : words (d :: rest) =
          (d :: rest.takeWhile (fun x => !(isWs x))) ::
            words (rest.dropWhile (fun x => !(isWs x))) := by
        rw [ih d hd']
        simp [List.takeWhile_cons, List.dropWhile_cons, hd]
      rw [words_cons_cons b d rest hb hd', ih2]
      simp [List.takeWhile_cons, List.dropWhile_cons, hb, hd]

/-- A line starting with a non-whitespace byte splits into at least one
word. -/
lemma words_cons_ne_nil (b : Nat) (bs : List Nat) (hb : isWs b = false) :
    words (b :: bs) ≠ [] := by
  rw [words_cons_eq bs b hb]
  simp

/-- The split is empty exactly when the line is all whitespace. -/
lemma words_eq_nil_iff (cs : List Nat) :
    words cs = [] ↔ cs.dropWhile (fun b => isWs b) = [] := by
  rw [← words_dropWhile_ws cs]
  cases h : cs.dropWhile (fun b => isWs b) with
  | nil => simp [words]
  | cons b bs =>
    have hb : isWs b = false := by
      have := List.dropWhile_get_zero_not (fun x => isWs x) cs (by rw [h]; simp)
      simpa [h] using this
    simp [words_cons_ne_nil b bs hb]

/-- Skipping one word drops one token from the split. -/
lemma words_stepWord (cs : List Nat) :
    words (stepWord cs) = (words cs).drop 1 := by
  unfold stepWord
  cases h : cs.dropWhile (fun b => isWs b) with
  | nil =>
    have : words cs = [] := (words_eq_nil_iff cs).mpr h
    simp [this, words]
  | cons b bs =>
    have hb : isWs b = false := by
      have := List.dropWhile_get_zero_not (fun x => isWs x) cs (by rw [h]; simp)
      simpa [h] using this
    have hw : words cs = ((b :: bs).takeWhile (fun x => !(isWs x))) ::
        words ((b :: bs).dropWhile (fun x => !(isWs x))) := by
      rw [← words_dropWhile_ws cs, h]
      exact words_cons_eq bs b hb
    rw [hw]
    simp

/-- The suffix starting at the `(k+1)`-th word splits into the tokens the
first `k` words leave behind. -/
lemma words_afterWords (k : Nat) : ∀ cs : List Nat,
    words (afterWords k cs) = (words cs).drop k := by
  induction k with
  | zero => intro cs; simpa [afterWords] using words_dropWhile_ws cs
  | succ k ih =>
    intro cs
    rw [show afterWords (k + 1) cs = afterWords k (stepWord cs) from rfl, ih,
      words_stepWord]
    rw [List.drop_drop, Nat.add_comm]

/-- The tokenizer never produces more than `maxargs` tokens. -/
lemma tokenize_length_le (maxargs : Nat) (cs : List Nat) (hmax : 1 ≤ maxargs) :
    (tokenize maxargs cs).length ≤ maxargs := by
  unfold tokenize
  split_ifs with h h0
  · exact h
  · omega
  · simp [List.length_take]
    omega

/-- C6: the tokenizer splits on runs of spaces and tabs into at most
`maxargs` tokens; with more words than `maxargs` the remainder of the line
beyond the first `maxargs − 1` words is placed, not dropped, into the last
slot (its own word split is exactly the leftover words), and argc never
exceeds the maximum. -/
theorem C6_tokenizer_bounds (maxargs : Nat) (cs : List Nat) (hmax : 1 ≤ maxargs) :
    (tokenize maxargs cs).length ≤ maxargs ∧
    ((words cs).length ≤ maxargs → tokenize maxargs cs = words cs) ∧
    (maxargs < (words cs).length →
      tokenize maxargs cs =
        (words cs).take (maxargs - 1) ++ [afterWords (maxargs - 1) cs] ∧
      words (afterWords (maxargs - 1) cs) = (words cs).drop (maxargs - 1)) := by
  refine ⟨tokenize_length_le maxargs cs hmax, fun h => ?_, fun h => ⟨?_, ?_⟩⟩
  · unfold tokenize
    rw [if_pos h]
  · unfold tokenize
    rw [if_neg (by omega), if_neg (by omega)]
  · exact words_afterWords (maxargs - 1) cs

/-- C6 witness: four words against a two-token limit — the remainder
"b c d" lands whole in the last slot. -/
theorem C6_tokenizer_bounds_witness :
    (tokenize 2 (strBytes "a b c d")).length ≤ 2 ∧
    tokenize 2 (strBytes "a b c d") = [strBytes "a", strBytes "b c d"] := by
  have h := C6_tokenizer_bounds 2 (strBytes "a b c d") (by decide)
  exact ⟨h.1, (h.2.2 (by decide)).1.trans (by decide)⟩

/-- Submitting nonempty lines within the remaining history capacity appends
them in order, leaving a fresh buffer and no browsing cursor. -/
lemma submitSeq_eq (bufCap histCap : Nat) (lines : List (List Nat)) :
    ∀ s : ShellState, (∀ l ∈ lines, l ≠ []) →
      s.hist.length + lines.length ≤ histCap →
      s.buf = [] → s.cursor = 0 → s.nav = none →
      submitSeq bufCap histCap s lines = ⟨[], 0, s.hist ++ lines, none⟩ := by
  induction lines with
  | nil =>
    intro s _ _ hb hc hn
    cases s
    simp_all [submitSeq]
  | cons l ls ih =>
    intro s hne hlen hb hc hn
    have hl : l ≠ [] := hne l (by simp)
    have hstep : submitLine bufCap histCap s l =
        ⟨[], 0, s.hist ++ [l], none⟩ := by
      unfold submitLine
      rw [show applyEvent bufCap histCap { s with buf := l, cursor := l.length }
          EditEvent.Submit =
          ⟨[], 0, pushLine histCap s.hist l, none⟩ from by simp [applyEvent, hl]]
      unfold pushLine
      rw [if_pos (by simp at hlen ⊢; omega)]
    rw [show submitSeq bufCap histCap s (l :: ls) =
        submitSeq bufCap histCap (submitLine bufCap histCap s l) ls from rfl, hstep]
    rw [ih ⟨[], 0, s.hist ++ [l], none⟩ (fun x hx => hne x (by simp [hx]))
      (by simp at hlen ⊢; omega) rfl rfl rfl]
    simp

/-- After `k + 1` HistoryPrev presses from a non-browsing state the live
buffer holds the stored line `k` steps back from the newest, and the
navigation cursor sits on it. -/
lemma iterPrev_eq (bufCap histCap : Nat) (L : List (List Nat)) (hL : L ≠ []) :
    ∀ (k : Nat) (s : ShellState), s.hist = L → s.nav = none →
      k ≤ L.length - 1 →
      iterPrev bufCap histCap (k + 1) s =
        ⟨recallAt L k, (recallAt L k).length, L, some k⟩ := by
  intro k
  induction k with
  | zero =>
    intro s hh hn _
    show applyEvent bufCap histCap (iterPrev bufCap histCap 0 s) EditEvent.HistoryPrev = _
    rw [show iterPrev bufCap histCap 0 s = s from rfl]
    rw [show applyEvent bufCap histCap s EditEvent.HistoryPrev =
        { s with buf := recallAt s.hist (navTarget s.hist s.nav),
                 cursor := (recallAt s.hist (navTarget s.hist s.nav)).length,
                 nav := some (navTarget s.hist s.nav) } from by
      simp [applyEvent, hh, hL]]
    cases s
    simp_all [navTarget]
  | succ k ih =>
    intro s hh hn hk
    show applyEvent bufCap histCap (iterPrev bufCap histCap (k + 1) s)
        EditEvent.HistoryPrev = _
    rw [ih s hh hn (by omega)]
    rw [show applyEvent bufCap histCap
        ⟨recallAt L k, (recallAt L k).length, L, some k⟩ EditEvent.HistoryPrev =
        { buf := recallAt L (navTarget L (some k)),
          cursor := (recallAt L (navTarget L (some k))).length,
          hist := L,
          nav := some (navTarget L (some k)) } from by simp [applyEvent, hL]]
    have hnt : navTarget L (some k) = k + 1 := by
      show min (k + 1) (L.length - 1) = k + 1
      omega
    rw [hnt]

/-- C8: after submitting `N ≤ histCap` nonempty lines, the history holds
them all in order and the `(k+1)`-th HistoryPrev press recalls the
`k`-th-from-newest line into the live buffer — reverse submission order,
most recent first; submitting one more line when the history is full drops
the oldest stored line; submitting an empty line records nothing and
changes nothing. -/
theorem C8_history_recall (bufCap histCap : Nat) (lines : List (List Nat))
    (hne : ∀ l ∈ lines, l ≠ []) (hlen : lines.length ≤ histCap) :
    (submitSeq bufCap histCap initState lines).hist = lines ∧
    (∀ k, k < lines.length →
      (iterPrev bufCap histCap (k + 1)
          (submitSeq bufCap histCap initState lines)).buf =
        lines.getD (lines.length - 1 - k) []) ∧
    (∀ l : List Nat, l ≠ [] → lines.length = histCap →
      (submitLine bufCap histCap (submitSeq bufCap histCap initState lines) l).hist =
        lines.drop 1 ++ [l]) ∧
    (∀ s : ShellState, s.buf = [] →
      applyEvent bufCap histCap s EditEvent.Submit = s) := by
  have hfin : submitSeq bufCap histCap initState lines = ⟨[], 0, lines, none⟩ := by
    rw [submitSeq_eq bufCap histCap lines initState hne (by simp [initState]; omega)
      rfl rfl rfl]
    simp [initState]
  refine ⟨by rw [hfin], fun k hk => ?_, fun l hl hful => ?_, fun s hs => ?_⟩
  · have hL : lines ≠ [] := by
      intro h
      rw [h] at hk
      simp at hk
    rw [hfin, iterPrev_eq bufCap histCap lines hL k ⟨[], 0, lines, none⟩ rfl rfl
      (by omega)]
    rfl
  · rw [hfin]
    unfold submitLine
    rw [show applyEvent bufCap histCap
        { (⟨[], 0, lines, none⟩ : ShellState) with buf := l, cursor := l.length }
        EditEvent.Submit = ⟨[], 0, pushLine histCap lines l, none⟩ from by
      simp [applyEvent, hl]]
    unfold pushLine
    rw [if_neg (by omega)]
  · simp [applyEvent, hs]

/-- C8 witness: submitting "aa" then "bb" into a two-slot history — one
press recalls "bb", two presses recall "aa", a third submission "cc" evicts
"aa", and submitting an empty line on a fresh buffer changes nothing. -/
theorem C8_history_recall_witness :
    (iterPrev 100 2 1 (submitSeq 100 2 initState [strBytes "aa", strBytes "bb"])).buf =
      strBytes "bb" ∧
    (iterPrev 100 2 2 (submitSeq 100 2 initState [strBytes "aa", strBytes "bb"])).buf =
      strBytes "aa" ∧
    (submitLine 100 2 (submitSeq 100 2 initState [strBytes "aa", strBytes "bb"])
        (strBytes "cc")).hist = [strBytes "bb", strBytes "cc"] ∧
    applyEvent 100 2 initState EditEvent.Submit = initState := by
  have h := C8_history_recall 100 2 [strBytes "aa", strBytes "bb"] (by decide)
    (by decide)
  refine ⟨(h.2.1 0 (by decide)).trans (by decide),
    (h.2.1 1 (by decide)).trans (by decide),
    (h.2.2.1 (strBytes "cc") (by decide) (by decide)).trans (by decide),
    h.2.2.2 initState rfl⟩

/-- C10: with none of the configuration macros overridden, `Shell.h`
defaults to at most 5 registered commands, a 100-character input buffer
(hence at most 99 characters of line content plus the terminator), and at
most 10 tokens per dispatched command — so every tokenization under the
default build yields argc ≤ 10. -/
theorem C10_default_configuration :
    CONFIG_SHELL_MAX_COMMANDS = 5 ∧
    CONFIG_SHELL_MAX_INPUT = 100 ∧
    CONFIG_SHELL_MAX_INPUT - 1 = 99 ∧
    CONFIG_SHELL_MAX_COMMAND_ARGS = 10 ∧
    ∀ line : List Nat,
      (tokenize CONFIG_SHELL_MAX_COMMAND_ARGS line).length ≤ 10 :=
  ⟨rfl, rfl, rfl, rfl, fun line => tokenize_length_le 10 line (by omega)⟩

end Shell
